import Mathlib

/-!
Formal model of the Workout interval-timer program (src/main.rs and
src/workout.rs).

Strings are modelled as lists of characters (`Str`); the source is ASCII
throughout, so Rust's byte indexing coincides with character indexing.
`Duration` values are modelled as natural numbers of nanoseconds
(`nsec n` is `Duration::from_secs(n)`).  Fallible Rust code is modelled
with `Except`; a Rust panic (out-of-bounds slice or index) is modelled by
a distinct `panic` error constructor, kept separate from the `anyhow`
error values the program itself constructs.
-/

namespace Workout2Proof

abbrev Str := List Char

/-- Nanoseconds of `Duration::from_secs n`. -/
def nsec (n : Nat) : Nat := n * 1000000000

/-- Rust `str::trim_start` (drop leading whitespace). -/
def trimStart : Str → Str
  | [] => []
  | c :: s => if c.isWhitespace then trimStart s else c :: s

/-- Rust `str::strip_prefix p`: `some` of the remainder when `p` leads `s`. -/
def stripPre : Str → Str → Option Str
  | [], s => some s
  | _ :: _, [] => none
  | p :: ps, c :: cs => if p = c then stripPre ps cs else none

/-- Rust `str::strip_prefix c` for a single character. -/
def stripPrefixChar (p : Char) : Str → Option Str
  | [] => none
  | c :: s => if c = p then some s else none

/-- Rust `str::split_once sep`: split at the first occurrence of `sep`. -/
def splitOnce (sep : Char) : Str → Option (Str × Str)
  | [] => none
  | c :: s =>
    if c = sep then some ([], s)
    else (splitOnce sep s).map (fun pr => (c :: pr.1, pr.2))

/-- Rust `str::rsplit_once sep`: split at the last occurrence of `sep`,
returning (before, after). -/
def rsplitOnce (sep : Char) (s : Str) : Option (Str × Str) :=
  (splitOnce sep s.reverse).map (fun pr => (pr.2.reverse, pr.1.reverse))

/-- Numeric value of a digit string (callers check `isDigit` first). -/
def digitsToNat (s : Str) : Nat := s.foldl (fun a c => a * 10 + (c.toNat - 48)) 0

/-- Rust `str::parse::<uN>()`: an optional leading `+`, then one or more
digits, rejecting values above the type's maximum (`bound`). -/
def parseNatBound (s : Str) (bound : Nat) : Option Nat :=
  let t := match s with | '+' :: r => r | _ => s
  if t.isEmpty then none
  else if t.all (·.isDigit) then
    let v := digitsToNat t
    if v ≤ bound then some v else none
  else none

def U64MAX : Nat := 18446744073709551615

def U16MAX : Nat := 65535

/-- Rust `str::lines` of the model string: split on newlines, drop the
final empty piece produced by a trailing newline, strip a trailing `\r`. -/
def splitOnNl : Str → List Str
  | [] => [[]]
  | c :: rest =>
    if c = '\n' then [] :: splitOnNl rest
    else match splitOnNl rest with
      | [] => [[c]]
      | h :: t => (c :: h) :: t

def stripCr (l : Str) : Str := if l.getLast? = some '\r' then l.dropLast else l

def rustLines (s : Str) : List Str :=
  let p := splitOnNl s
  let p := if p.getLast? = some [] then p.dropLast else p
  p.map stripCr

/-- A line is dropped by the parser when `l.trim().is_empty()`. -/
def isBlank (l : Str) : Bool := l.all (·.isWhitespace)

/-- Error of the inner `parse_dur`: `panic` models the out-of-bounds
slice `s[..5]` on tokens shorter than five characters, `notInt` the
`ParseIntError` of `str::parse::<u64>`. -/
inductive DurErr where
  | panic
  | notInt
deriving DecidableEq

/-- The duration parser `parse_dur` (identical in both source files):
slice the first five characters, split into a two-character minute field
and, skipping one separator character, a two-character second field. -/
def parseDur (s : Str) : Except DurErr Nat :=
  if s.length < 5 then .error .panic
  else
    let first5 := s.take 5
    let mins := first5.take 2
    let secs := (first5.drop 2).drop 1
    match parseNatBound mins U64MAX, parseNatBound secs U64MAX with
    | some m, some s2 => .ok (nsec (m * 60 + s2))
    | _, _ => .error .notInt

inductive ExcerciseAmout where
  | Time (duration : Nat) (midbeep : Bool)
  | Reps (n : Nat)
deriving DecidableEq

inductive WorkoutSetElement where
  | Excercise (name : Str) (amount : ExcerciseAmout)
  | Rest (duration : Nat)
deriving DecidableEq

structure WorkoutSet where
  name : Option Str
  parts : List WorkoutSetElement
  reps : Nat
  set_rest : Option Nat
deriving DecidableEq

structure Workout where
  name : Str
  sections : List WorkoutSet
deriving DecidableEq

/-- Parse errors of `load_workout`, one constructor per `anyhow` message
construction site in the source, plus `panic` for Rust panics reached
while parsing (empty line list, short duration tokens). -/
inductive ParseErr where
  | panic
  | missingWorkoutName
  | expectedSet
  | noAmount
  | badReps
  | badExcDuration
  | badRestDuration
deriving DecidableEq

/-- The `get_name_reps` closure of `load_workout`: name and repetition
count from the remainder of a `Set` header line. -/
def getNameReps (set0 : Str) : Option Str × Nat :=
  let set := trimStart set0
  if set.isEmpty then (none, 1)
  else match rsplitOnce ' ' set with
    | some (nm, reps) =>
      match stripPrefixChar 'x' reps with
      | some v =>
        match parseNatBound v U16MAX with
        | some r => (some nm, r)
        | none => (some set, 1)
      | none => (some set, 1)
    | none => (some set, 1)

/-- The inner element loop of `load_workout`: consume `Excercise`/`Rest`
lines into set elements, returning the elements and the unconsumed
remainder of the line list. -/
def parseParts : List Str → Except ParseErr (List WorkoutSetElement × List Str)
  | [] => .ok ([], [])
  | l :: ls =>
    match splitOnce ' ' (trimStart l) with
    | none => .ok ([], l :: ls)
    | some (t, rest) =>
      if t = "Excercise".toList then
        match rsplitOnce ' ' rest with
        | none => .error .noAmount
        | some (nm, amount) =>
          match stripPrefixChar 'x' amount with
          | some v =>
            match parseNatBound v U16MAX with
            | none => .error .badReps
            | some r =>
              match parseParts ls with
              | .error e => .error e
              | .ok (ps, rem) => .ok (.Excercise nm (.Reps r) :: ps, rem)
          | none =>
            let midbeep := amount.getLast? == some '"'
            match parseDur amount with
            | .error .panic => .error .panic
            | .error .notInt => .error .badExcDuration
            | .ok d =>
              match parseParts ls with
              | .error e => .error e
              | .ok (ps, rem) => .ok (.Excercise nm (.Time d midbeep) :: ps, rem)
      else if t = "Rest".toList then
        match parseDur rest with
        | .error .panic => .error .panic
        | .error .notInt => .error .badRestDuration
        | .ok d =>
          match parseParts ls with
          | .error e => .error e
          | .ok (ps, rem) => .ok (.Rest d :: ps, rem)
      else .ok ([], l :: ls)

/-- The outer section loop of `load_workout`.  Fuel counts loop
iterations; each iteration consumes at least the header line and the
element loop only ever hands back a sublist of its input
(`parseParts_sublist` below), so a fuel of the line-list length — what
`loadWorkout` passes — always suffices and the fuel-exhausted case is
unreachable from `loadWorkout`. -/
def parseSectionsF : Nat → List Str → Except ParseErr (List WorkoutSet)
  | _, [] => .ok []
  | 0, _ :: _ => .error .panic
  | fuel + 1, l :: ls =>
    match stripPre "Set".toList (trimStart l) with
    | none => .error .expectedSet
    | some set =>
      let nr := getNameReps set
      match parseParts ls with
      | .error e => .error e
      | .ok (ps, rem) =>
        match rem with
        | [] => .ok [⟨nr.1, ps, nr.2, none⟩]
        | r0 :: rem2 =>
          match stripPre "Set rest ".toList (trimStart r0) with
          | some tok =>
            match parseDur tok with
            | .error .panic => .error .panic
            | .error .notInt =>
              match parseSectionsF fuel rem with
              | .error e => .error e
              | .ok secs => .ok (⟨nr.1, ps, nr.2, none⟩ :: secs)
            | .ok d =>
              match parseSectionsF fuel rem2 with
              | .error e => .error e
              | .ok secs => .ok (⟨nr.1, ps, nr.2, some d⟩ :: secs)
          | none =>
            match parseSectionsF fuel rem with
            | .error e => .error e
            | .ok secs => .ok (⟨nr.1, ps, nr.2, none⟩ :: secs)

/-- `load_workout` (workout.rs) / `get_workout` (main.rs): filter blank
lines, read the `Workout` header from `lines[0]` (a panic when no
non-blank line exists), then run the section loop. -/
def loadWorkout (src : Str) : Except ParseErr Workout :=
  let lines := (rustLines src).filter (fun l => !(isBlank l))
  match lines with
  | [] => .error .panic
  | l0 :: rest =>
    match stripPre "Workout ".toList (trimStart l0) with
    | none => .error .missingWorkoutName
    | some nm =>
      match parseSectionsF rest.length rest with
      | .error e => .error e
      | .ok secs => .ok ⟨nm, secs⟩

/-- Element duration as summed by `Workout::length`. -/
def partDuration : WorkoutSetElement → Nat
  | .Excercise _ (.Time d _) => d
  | .Excercise _ (.Reps _) => 0
  | .Rest d => d

/-- One section's contribution in `Workout::length`.  `reps` is a `u16`
cast to `u32`, and `reps - 1` is u32 arithmetic: in release mode a zero
`reps` wraps around to `2^32 - 1`, modelled by the explicit `% 2^32`. -/
def sectionLength (s : WorkoutSet) : Nat :=
  let reps := s.reps
  let rests := s.set_rest.getD 0
  let parts := (s.parts.map partDuration).sum
  rests * ((reps + 4294967295) % 4294967296) + parts * reps

/-- `Workout::length` (identical in both source files). -/
def workoutLength (w : Workout) : Nat := (w.sections.map sectionLength).sum

/-! ## Player traces

Both players are modelled as functions computing the sequence of
observable side effects: console prints, sleeps (in nanoseconds) and
beep-callback invocations.  A print of fixed text is `Event.print` of
the exact string; a print whose text interpolates runtime data is a
dedicated constructor carrying that data (the two source files format
such data with identical `Display` implementations, so two such events
are equal exactly when the printed text is equal).  Reading the operator
confirmation line from standard input is modelled as the always
successful `Event.readLine`. -/

inductive BeepLevel where
  | High
  | Mid
  | Low
deriving DecidableEq

/-- `BeepLevel::get_frequency`, in Hz (whole-valued `f32`s in source). -/
def getFrequency : BeepLevel → Nat
  | .High => 750
  | .Mid => 600
  | .Low => 450

inductive Event where
  | printBanner (name : Str) (len : Nat)
  | printSection (name : Option Str) (reps : Nat)
  | printRepeat (cur total : Nat)
  | printElem (e : WorkoutSetElement)
  | printNext (name : Str)
  | printRestHdr (d : Nat)
  | printStartFrom (name : Option Str)
  | printStartRep (cur total : Nat)
  | printStartEx (idx : Nat)
  | print (s : String)
  | sleep (d : Nat)
  | beep (l : BeepLevel)
  | readLine
deriving DecidableEq

/-- Runtime failures of `do_workout`: its "Starting position is out of
bounds" error (both construction sites share the message), and the Rust
panic of the unchecked `workout.sections[from.0]` index. -/
inductive RunErr where
  | outOfBounds
  | panic
deriving DecidableEq

def PRE_SECTION_WAIT : Nat := nsec 2

def REST_END_WARNING : Nat := nsec 5

/-- `duration.div_f64(2.)` for the midpoint cue (exact halving at
nanosecond resolution; both players compute it identically). -/
def halfDur (d : Nat) : Nat := d / 2

/-- The rest handling of `do_workout` (workout.rs), shared verbatim by
its inter-element rests (indent `"    "`) and its inter-repetition set
rests (indent `"  "`): `match duration.checked_sub(REST_END_WARNING)
{ Some(f) if !f.is_zero() => sleep f; print; beep Mid; sleep warning,
_ => sleep duration }`. -/
def restWarnTrace (indent : String) (d : Nat) : List Event :=
  if REST_END_WARNING < d then
    [.sleep (d - REST_END_WARNING), .print (indent ++ "5s left"), .beep .Mid,
     .sleep REST_END_WARNING]
  else [.sleep d]

/-- The inter-element rest handling of `play_workout` (main.rs): same
shape but without the `is_zero` guard, so a rest of exactly the warning
window still takes the warning branch (with a zero first sleep). -/
def restWarnNoGuard (d : Nat) : List Event :=
  if REST_END_WARNING ≤ d then
    [.sleep (d - REST_END_WARNING), .print "    5s left", .beep .Mid,
     .sleep REST_END_WARNING]
  else [.sleep d]

/-- The set-rest block of `do_workout`: print the rest header, then the
warning policy on `set_rest` saturating-minus the pre-section wait. -/
def setRestTrace : Option Nat → List Event
  | some d => .printRestHdr d :: restWarnTrace "  " (d - PRE_SECTION_WAIT)
  | none => []

/-- The `find_map` of `do_workout` locating the index of the
`exesLeft`-th `Excercise` element (one-based count). -/
def findExcerciseIdx : List WorkoutSetElement → Nat → Option Nat
  | [], _ => none
  | p :: rest, exesLeft =>
    match p with
    | .Excercise _ _ =>
      if exesLeft - 1 = 0 then some 0
      else (findExcerciseIdx rest (exesLeft - 1)).map (· + 1)
    | .Rest _ => (findExcerciseIdx rest exesLeft).map (· + 1)

/-- The element loop of `do_workout` from a start index, modelled on the
dropped suffix of the part list (the next-element preview reads the
following list entry). -/
def doPartsTrace : List WorkoutSetElement → List Event
  | [] => []
  | p :: rest =>
    (Event.printElem p ::
      match p with
      | .Excercise _ amount =>
        Event.beep .High ::
          (match amount with
           | .Time d mid =>
             (if mid then
                [Event.sleep (halfDur d), .print "    Reached midpoint",
                 .beep .Mid, .sleep (halfDur d)]
              else [Event.sleep d]) ++ [Event.beep .Low]
           | .Reps _ => [Event.print "    Press enter to continue! ", .readLine])
      | .Rest d =>
        (match rest with
         | .Excercise nm _ :: _ => [Event.printNext nm]
         | _ => []) ++ restWarnTrace "    " d)
    ++ doPartsTrace rest

/-- The repetition loop of `do_workout` for one section: `i` is the
current repetition index, the third argument counts the remaining
iterations (`s.reps - start` at the call site), `first` is the one-shot
resume flag threaded through the loops; it returns the events and the
flag's final value. -/
def doRepsTrace (s : WorkoutSet) (from2 : Nat) :
    Bool → Nat → Nat → Except RunErr (List Event × Bool)
  | first, _, 0 => .ok ([], first)
  | first, i, n + 1 =>
    let pre := (if 0 < i then [Event.printRepeat (i + 1) s.reps] else []) ++
      [Event.beep .Mid, .beep .Mid, .sleep PRE_SECTION_WAIT]
    let startRes : Except RunErr (Nat × Bool) :=
      if first then
        match findExcerciseIdx s.parts (from2 + 1) with
        | some idx => .ok (idx, false)
        | none => .error .outOfBounds
      else .ok (0, false)
    match startRes with
    | .error e => .error e
    | .ok (st, f) =>
      match doRepsTrace s from2 f (i + 1) n with
      | .error e => .error e
      | .ok (evs, f2) =>
        .ok (pre ++ doPartsTrace (s.parts.drop st) ++
          (if i < s.reps - 1 then setRestTrace s.set_rest else []) ++ evs, f2)

/-- The section loop of `do_workout`: the header print, then (while the
resume flag is set) a six-second sleep, then the repetition loop
starting at the resume repetition index. -/
def doSectionsTrace (from1 from2 : Nat) :
    Bool → List WorkoutSet → Except RunErr (List Event)
  | _, [] => .ok []
  | first, s :: rest =>
    let pre := Event.printSection s.name s.reps ::
      (if first then [Event.sleep (nsec 6)] else [])
    let start := if first then from1 else 0
    match doRepsTrace s from2 first start (s.reps - start) with
    | .error e => .error e
    | .ok (evs, f2) =>
      match doSectionsTrace from1 from2 f2 rest with
      | .error e => .error e
      | .ok tevs => .ok (pre ++ evs ++ tevs)

/-- `do_workout` (workout.rs): banner, opening fanfare, resume
validation and resume prints when the start position is not `(0,0,0)`
(indexing `sections[from.0]` before the bounds check, a panic when the
section index is out of range), the section loop from the resume
section, and the completion tail. -/
def doWorkoutTrace (w : Workout) (from0 from1 from2 : Nat) :
    Except RunErr (List Event) :=
  let banner := [Event.printBanner w.name (workoutLength w),
    Event.beep .High, .beep .Mid, .beep .Low]
  let resume : Except RunErr (List Event) :=
    if from0 = 0 ∧ from1 = 0 ∧ from2 = 0 then .ok []
    else
      match w.sections.get? from0 with
      | none => .error .panic
      | some sec =>
        let parts := (sec.parts.filter fun p =>
          match p with | .Excercise _ _ => true | .Rest _ => false).length
        if from0 > w.sections.length ∨ from1 > sec.reps ∨ from2 > parts then
          .error .outOfBounds
        else
          .ok ([Event.printStartFrom sec.name] ++
            (if from1 ≠ 0 then [Event.printStartRep (from1 + 1) sec.reps] else []) ++
            [Event.printStartEx (from2 + 1)])
  match resume with
  | .error e => .error e
  | .ok resumeEvs =>
    match doSectionsTrace from1 from2 true (w.sections.drop from0) with
    | .error e => .error e
    | .ok evs =>
      .ok (banner ++ resumeEvs ++ evs ++
        [Event.print "Reached the end. Good job!", .sleep (nsec 2),
         .beep .Low, .beep .Mid, .beep .High, .sleep (nsec 2)])

/-- The element loop of `play_workout` (main.rs): no next-element
preview, and the unguarded warning policy for rests. -/
def playPartsTrace : List WorkoutSetElement → List Event
  | [] => []
  | p :: rest =>
    (Event.printElem p ::
      match p with
      | .Excercise _ amount =>
        Event.beep .High ::
          (match amount with
           | .Time d mid =>
             (if mid then
                [Event.sleep (halfDur d), .print "    Reached midpoint",
                 .beep .Mid, .sleep (halfDur d)]
              else [Event.sleep d]) ++ [Event.beep .Low]
           | .Reps _ => [Event.print "    Press enter to continue! ", .readLine])
      | .Rest d => restWarnNoGuard d)
    ++ playPartsTrace rest

/-- The repetition loop of `play_workout`: its set rest is a plain sleep
of `set_rest` saturating-minus the pre-section wait, with no warning. -/
def playRepsTrace (s : WorkoutSet) : Nat → Nat → List Event
  | _, 0 => []
  | i, n + 1 =>
    (if 0 < i then [Event.printRepeat (i + 1) s.reps] else []) ++
    [Event.beep .Mid, .beep .Mid, .sleep PRE_SECTION_WAIT] ++
    playPartsTrace s.parts ++
    (if i < s.reps - 1 then
      match s.set_rest with
      | some d => [Event.printRestHdr d, .sleep (d - PRE_SECTION_WAIT)]
      | none => []
     else []) ++
    playRepsTrace s (i + 1) n

def playSectionsTrace : List WorkoutSet → List Event
  | [] => []
  | s :: rest =>
    Event.printSection s.name s.reps :: playRepsTrace s 0 s.reps ++
      playSectionsTrace rest

/-- `play_workout` (main.rs): banner, all sections from index zero, and
its completion tail (note the misspelt completion message). -/
def playWorkoutTrace (w : Workout) : List Event :=
  Event.printBanner w.name (workoutLength w) :: playSectionsTrace w.sections ++
    [Event.print "Readched the end. Good job!", .sleep (nsec 1)]

/-! ## Spec-side definitions

`workoutLengthSpec` follows the wording of the specification's length
formula, for comparison against the source-derived `workoutLength`.  The
remaining definitions support stating the player-comparison and parser
theorems. -/

/-- Parts duration as the spec words it: sum each element's duration —
`Rest.duration`, or `Exercise.duration` when timed, or zero for
rep-based exercises. -/
def partsDurationSpec (parts : List WorkoutSetElement) : Nat :=
  (parts.map (fun p =>
    match p with
    | .Rest d => d
    | .Excercise _ (.Time d _) => d
    | .Excercise _ (.Reps _) => 0)).sum

/-- Section duration as the spec words it:
`set_rest × (reps − 1) + parts_duration × reps`. -/
def sectionLengthSpec (s : WorkoutSet) : Nat :=
  s.set_rest.getD 0 * (s.reps - 1) + partsDurationSpec s.parts * s.reps

/-- Workout length as the spec words it: the sum over sections. -/
def workoutLengthSpec (w : Workout) : Nat :=
  (w.sections.map sectionLengthSpec).sum

/-- Insert the resumable player's extra six-second sleep right after the
first event of a trace (the first section's header print). -/
def withSleep6 : List Event → List Event
  | [] => []
  | h :: t => h :: Event.sleep (nsec 6) :: t

/-- Part lists on which the two players' element loops agree: no `Rest`
lasting exactly the five-second warning window (where only main.rs takes
the warning branch), and no `Rest` immediately followed by an
`Excercise` (where only workout.rs prints a next-up preview). -/
def partsOk : List WorkoutSetElement → Bool
  | [] => true
  | .Rest d :: rest =>
    (d != nsec 5) &&
    (match rest with | .Excercise _ _ :: _ => false | _ => true) &&
    partsOk rest
  | .Excercise _ _ :: rest => partsOk rest

/-- Sections on which the two players' repetition loops agree: agreeable
parts, and any set rest at most seven seconds (after the two-second
saturating subtraction it fits inside the warning window, so the
resumable player's warning policy degenerates to main.rs's plain
sleep). -/
def sectionOk (s : WorkoutSet) : Bool :=
  partsOk s.parts &&
  (match s.set_rest with | some d => decide (d ≤ nsec 7) | none => true)

/-- Workouts on which the two players coincide up to the resumable
player's fixed extras: all sections agreeable, and the first section (if
any) has at least one repetition and begins with an `Excercise` element
(so the resumable player's skip-to-first-exercise resolution is the
identity and cannot fail). -/
def workoutOk (w : Workout) : Bool :=
  w.sections.all sectionOk &&
  (match w.sections with
   | [] => true
   | s :: _ =>
     decide (1 ≤ s.reps) &&
     (match s.parts with | .Excercise _ _ :: _ => true | _ => false))

/-- A line whose `Set` header carries an explicit `x0` repetition
token — the only way `load_workout` produces a section with zero
reps. -/
def isX0Header (l : Str) : Bool :=
  match stripPre "Set".toList (trimStart l) with
  | some s =>
    (match rsplitOnce ' ' (trimStart s) with
     | some (_, r) =>
       (match stripPrefixChar 'x' r with
        | some v => parseNatBound v U16MAX == some 0
        | none => false)
     | none => false)
  | none => false

/-! ## Supporting lemmas -/

theorem partsDuration_eq (parts : List WorkoutSetElement) :
    (parts.map partDuration).sum = partsDurationSpec parts := by
  induction parts with
  | nil => rfl
  | cons p rest ih =>
    simp only [partsDurationSpec, List.map_cons, List.sum_cons] at *
    rw [ih]
    rcases p with ⟨nm, am⟩ | d
    · rcases am with ⟨d, mb⟩ | n <;> rfl
    · rfl

theorem sectionLength_eq_spec (s : WorkoutSet) (h1 : 1 ≤ s.reps)
    (h2 : s.reps ≤ U16MAX) : sectionLength s = sectionLengthSpec s := by
  have h2' : s.reps ≤ 65535 := h2
  have hwrap : (s.reps + 4294967295) % 4294967296 = s.reps - 1 := by omega
  simp only [sectionLength, sectionLengthSpec]
  rw [hwrap, partsDuration_eq]

/-! ## Claims -/

/-- C1 counterexample: the text from the claim spells the element
keyword `Exercise`, but the source grammar only recognises the
(misspelt) keyword `Excercise`; the unrecognised line ends the element
list, is not a `Set rest` line, and then fails the section-header check,
so parsing fails with the expected-set error rather than succeeding. -/
theorem c1_counterexample :
    loadWorkout ("Workout W\nSet\nExercise Push x10\n".toList) =
      .error .expectedSet := by rfl

/-- C1 amended: with the source's own keyword spelling `Excercise`,
parsing the text succeeds and yields a workout named "W" with exactly
one section having reps = 1 and exactly one element, an `Excercise`
whose amount is `Reps 10`. -/
theorem c1_amended :
    loadWorkout ("Workout W\nSet\nExcercise Push x10\n".toList) =
      .ok ⟨"W".toList, [⟨none, [.Excercise "Push".toList (.Reps 10)], 1, none⟩]⟩ := by
  rfl

/-- C3: the code evaluated at the failing input.  The one-section
workout below has section indices 0 only, so the claim requires start
position (1,0,0) to fail with `StartPositionOutOfBounds`; the code
instead indexes `workout.sections[from.0]` before its bounds check and
panics.  Moreover (0,1,0), whose repetition index 1 is out of range for
reps = 1, passes the `>`-based validation and the player proceeds,
returning success — not the claimed error. -/
theorem c3_code_evaluation :
    doWorkoutTrace ⟨"W".toList, [⟨none, [.Excercise "Push".toList (.Reps 10)], 1, none⟩]⟩
        1 0 0 = .error .panic ∧
    (doWorkoutTrace ⟨"W".toList, [⟨none, [.Excercise "Push".toList (.Reps 10)], 1, none⟩]⟩
        0 1 0).isOk = true := ⟨rfl, rfl⟩

/-- C4: whenever `do_workout` performs a rest of total duration `d` —
an inter-element rest (indent four spaces), or an inter-repetition set
rest (indent two spaces) whose total is `set_rest` minus the two-second
pre-section wait, saturating at zero — then: if `d` exceeds the
five-second warning window it sleeps `d` minus five seconds, prints the
seconds-left notice, emits exactly one Mid beep, then sleeps five
seconds; if `d` is at most five seconds it sleeps the full `d` with no
warning beep. -/
theorem c4_rest_with_warning (ind : String) (d : Nat) :
    (REST_END_WARNING < d →
      restWarnTrace ind d =
        [.sleep (d - REST_END_WARNING), .print (ind ++ "5s left"), .beep .Mid,
         .sleep REST_END_WARNING]) ∧
    (d ≤ REST_END_WARNING → restWarnTrace ind d = [.sleep d]) ∧
    setRestTrace (some d) =
      Event.printRestHdr d :: restWarnTrace "  " (d - PRE_SECTION_WAIT) := by
  refine ⟨fun h => ?_, fun h => ?_, rfl⟩
  · simp [restWarnTrace, h]
  · simp [restWarnTrace, Nat.not_lt.mpr h]

/-- C4 witness: the spec's own examples — a twenty-second rest sleeps
fifteen seconds, beeps Mid once, then sleeps the five-second window; a
three-second rest sleeps three seconds with no warning cue. -/
theorem c4_witness :
    restWarnTrace "    " (nsec 20) =
      [.sleep (nsec 15), .print "    5s left", .beep .Mid, .sleep (nsec 5)] ∧
    restWarnTrace "    " (nsec 3) = [.sleep (nsec 3)] := by
  constructor
  · rw [(c4_rest_with_warning "    " (nsec 20)).1 (by decide)]; decide
  · exact (c4_rest_with_warning "    " (nsec 3)).2.1 (by decide)

/-- C6 counterexample: the claim says a token of five or more characters
whose third character is not a colon fails with the bad-duration error;
in fact `parse_dur` skips the third character without inspecting it, so
"01x30" parses successfully to 90 seconds. -/
theorem c6_counterexample : parseDur ("01x30".toList) = .ok (nsec 90) := by rfl

/-- C6 amended: `parse_dur` reads exactly the first five characters of
the token (further characters are ignored), taking characters 0–1 as
minutes and characters 3–4 as seconds and skipping character 2 without
checking it, yielding minutes × 60 + seconds; it fails with the
bad-duration error exactly when the minute or second field does not
parse as a u64, and a token shorter than five characters fails with an
index/bounds panic. -/
theorem c6_amended (s : Str) :
    (s.length < 5 → parseDur s = .error .panic) ∧
    (5 ≤ s.length → parseDur s = parseDur (s.take 5)) ∧
    (∀ m n, 5 ≤ s.length →
      parseNatBound (s.take 2) U64MAX = some m →
      parseNatBound ((s.take 5).drop 3) U64MAX = some n →
      parseDur s = .ok (nsec (m * 60 + n))) ∧
    (5 ≤ s.length →
      (parseNatBound (s.take 2) U64MAX = none ∨
        parseNatBound ((s.take 5).drop 3) U64MAX = none) →
      parseDur s = .error .notInt) := by
  have hmins : (s.take 5).take 2 = s.take 2 := by
    rw [List.take_take]; norm_num
  have hsecs : ((s.take 5).drop 2).drop 1 = (s.take 5).drop 3 := by
    rw [List.drop_drop]
  refine ⟨fun h => ?_, fun h => ?_, fun m n h hm hn => ?_, fun h hor => ?_⟩
  · simp [parseDur, h]
  · have h5 : ¬ s.length < 5 := Nat.not_lt.mpr h
    have h5' : ¬ (s.take 5).length < 5 := by
      rw [List.length_take]; omega
    have htt : (s.take 5).take 5 = s.take 5 := by
      rw [List.take_take]; norm_num
    simp only [parseDur, h5, h5', if_false, htt]
  · have h5 : ¬ s.length < 5 := Nat.not_lt.mpr h
    simp only [parseDur, h5, if_false, hmins, hsecs, hm, hn]
  · have h5 : ¬ s.length < 5 := Nat.not_lt.mpr h
    rcases hor with hm | hn
    · simp only [parseDur, h5, if_false, hmins, hm]
    · simp only [parseDur, h5, if_false, hmins, hsecs, hn]
      rcases parseNatBound (s.take 2) U64MAX with _ | m <;> rfl

/-- C6 witness: "01:30" parses to 90 seconds, "00:05" to 5 seconds, and
the four-character token "1:30" panics. -/
theorem c6_witness :
    parseDur ("01:30".toList) = .ok (nsec 90) ∧
    parseDur ("00:05".toList) = .ok (nsec 5) ∧
    parseDur ("1:30".toList) = .error .panic := by
  refine ⟨?_, ?_, ?_⟩
  · rw [(c6_amended ("01:30".toList)).2.2.1 1 30 (by decide) (by decide) (by decide)]
  · rw [(c6_amended ("00:05".toList)).2.2.1 0 5 (by decide) (by decide) (by decide)]
  · exact (c6_amended ("1:30".toList)).1 (by decide)

/-- C7 counterexample: on the empty input, which has no non-blank lines,
the parser indexes `lines[0]` of an empty vector and panics instead of
returning the missing-workout-name error. -/
theorem c7_counterexample : loadWorkout ("".toList) = .error .panic := by rfl

/-- C7 amended: for every input that has at least one non-blank line,
if the first non-blank line (after leading whitespace) does not begin
with "Workout ", parsing fails with the missing-workout-name error and
in no other way; an input with no non-blank lines instead panics. -/
theorem c7_amended (src l0 : Str) (rest : List Str)
    (h : (rustLines src).filter (fun l => !(isBlank l)) = l0 :: rest)
    (h2 : stripPre "Workout ".toList (trimStart l0) = none) :
    loadWorkout src = .error .missingWorkoutName := by
  simp only [loadWorkout, h, h2]

/-- C7 witness: the one-line input "Hello" fails with the
missing-workout-name error. -/
theorem c7_witness : loadWorkout ("Hello".toList) = .error .missingWorkoutName :=
  c7_amended ("Hello".toList) ("Hello".toList) [] (by rfl) (by rfl)

/-- C9: for every workout whose sections all have reps ≥ 1 (reps is a
u16, hence also at most 65535), `Workout::length` equals the spec's
formula — the sum over sections of set_rest × (reps − 1) +
parts_duration × reps, with parts_duration summing rest durations and
timed exercise durations and counting zero for rep-based exercises.  In
particular a single section with reps = 3, no elements and a ten-second
set rest gives twenty seconds, and for a section with reps = 1 the
set_rest value never affects the result. -/
theorem c9_length_formula (w : Workout) :
    ((∀ sec ∈ w.sections, 1 ≤ sec.reps ∧ sec.reps ≤ U16MAX) →
      workoutLength w = workoutLengthSpec w) ∧
    workoutLength ⟨"X".toList, [⟨none, [], 3, some (nsec 10)⟩]⟩ = nsec 20 ∧
    (∀ name nm parts d,
      workoutLength ⟨name, [⟨nm, parts, 1, some d⟩]⟩ =
        workoutLength ⟨name, [⟨nm, parts, 1, none⟩]⟩) := by
  refine ⟨fun h => ?_, by norm_num [workoutLength, sectionLength, nsec], fun name nm parts d => ?_⟩
  · unfold workoutLength workoutLengthSpec
    have : ∀ secs : List WorkoutSet,
        (∀ sec ∈ secs, 1 ≤ sec.reps ∧ sec.reps ≤ U16MAX) →
        (secs.map sectionLength).sum = (secs.map sectionLengthSpec).sum := by
      intro secs
      induction secs with
      | nil => intro _; simp
      | cons a t ih =>
        intro hh
        simp only [List.map_cons, List.sum_cons]
        rw [sectionLength_eq_spec a (hh a (List.mem_cons_self a t)).1
            (hh a (List.mem_cons_self a t)).2,
          ih (fun b hb => hh b (List.mem_cons_of_mem a hb))]
    exact this w.sections h
  · show sectionLength ⟨nm, parts, 1, some d⟩ + 0 = sectionLength ⟨nm, parts, 1, none⟩ + 0
    unfold sectionLength
    norm_num

/-- C9 witness: a concrete workout (reps 2, one thirty-second rest
element, ten-second set rest) on which the source `length` and the spec
formula agree. -/
theorem c9_witness :
    workoutLength ⟨"W".toList, [⟨none, [.Rest (nsec 30)], 2, some (nsec 10)⟩]⟩ =
      workoutLengthSpec ⟨"W".toList, [⟨none, [.Rest (nsec 30)], 2, some (nsec 10)⟩]⟩ :=
  (c9_length_formula _).1 (by decide)

/-! ## Player comparison lemmas (for the resumable / non-resumable claim) -/

theorem restWarn_eq_noGuard (d : Nat) (h : d ≠ nsec 5) :
    restWarnTrace "    " d = restWarnNoGuard d := by
  have e1 : REST_END_WARNING = 5000000000 := rfl
  have e2 : nsec 5 = 5000000000 := rfl
  rw [e2] at h
  unfold restWarnTrace restWarnNoGuard
  rw [e1]
  by_cases h1 : (5000000000 : Nat) < d
  · rw [if_pos h1, if_pos (Nat.le_of_lt h1)]
    rfl
  · have h2 : ¬ (5000000000 : Nat) ≤ d := by omega
    rw [if_neg h1, if_neg h2]

theorem partsTrace_eq (ps : List WorkoutSetElement) (h : partsOk ps = true) :
    doPartsTrace ps = playPartsTrace ps := by
  induction ps with
  | nil => rfl
  | cons p rest ih =>
    cases p with
    | Excercise nm am =>
      have h' : partsOk rest = true := by simpa [partsOk] using h
      simp only [doPartsTrace, playPartsTrace, ih h']
    | Rest d =>
      simp only [partsOk, Bool.and_eq_true, bne_iff_ne, ne_eq] at h
      obtain ⟨⟨hd, hg⟩, hr⟩ := h
      rcases rest with _ | ⟨q, rest2⟩
      · simp only [doPartsTrace, playPartsTrace, restWarn_eq_noGuard d hd,
          List.nil_append]
      · cases q with
        | Excercise nm2 am2 => exact absurd hg (by simp)
        | Rest d2 =>
          have stepdo :
              doPartsTrace
                (WorkoutSetElement.Rest d :: WorkoutSetElement.Rest d2 :: rest2) =
              (Event.printElem (WorkoutSetElement.Rest d) ::
                ([] ++ restWarnTrace "    " d)) ++
                doPartsTrace (WorkoutSetElement.Rest d2 :: rest2) := rfl
          have stepplay :
              playPartsTrace
                (WorkoutSetElement.Rest d :: WorkoutSetElement.Rest d2 :: rest2) =
              (Event.printElem (WorkoutSetElement.Rest d) :: restWarnNoGuard d) ++
                playPartsTrace (WorkoutSetElement.Rest d2 :: rest2) := rfl
          rw [stepdo, stepplay, ih hr, restWarn_eq_noGuard d hd,
            List.nil_append]

theorem setRestTrace_none : setRestTrace none = [] := rfl

theorem setRestTrace_small (d : Nat) (h : d ≤ nsec 7) :
    setRestTrace (some d) =
      [Event.printRestHdr d, Event.sleep (d - PRE_SECTION_WAIT)] := by
  have e1 : REST_END_WARNING = 5000000000 := rfl
  have e2 : PRE_SECTION_WAIT = 2000000000 := rfl
  have e3 : nsec 7 = 7000000000 := rfl
  rw [e3] at h
  have hlt : ¬ REST_END_WARNING < d - PRE_SECTION_WAIT := by
    rw [e1, e2]; omega
  simp only [setRestTrace, restWarnTrace, if_neg hlt]

theorem repsTrace_eq (s : WorkoutSet) (hok : sectionOk s = true) (from2 : Nat) :
    ∀ n i, doRepsTrace s from2 false i n = .ok (playRepsTrace s i n, false) := by
  have hok' := hok
  simp only [sectionOk, Bool.and_eq_true] at hok'
  intro n
  induction n with
  | zero => intro i; rfl
  | succ n ih =>
    intro i
    have step : doRepsTrace s from2 false i (n + 1) =
        match doRepsTrace s from2 false (i + 1) n with
        | .error e => .error e
        | .ok (evs, f2) =>
          .ok ((if 0 < i then [Event.printRepeat (i + 1) s.reps] else []) ++
            [Event.beep .Mid, .beep .Mid, .sleep PRE_SECTION_WAIT] ++
            doPartsTrace (s.parts.drop 0) ++
            (if i < s.reps - 1 then setRestTrace s.set_rest else []) ++ evs, f2) := rfl
    rw [step, ih (i + 1)]
    rcases hs : s.set_rest with _ | d
    · simp only [List.drop_zero, partsTrace_eq s.parts hok'.1, hs,
        setRestTrace_none, playRepsTrace]
    · have hd : d ≤ nsec 7 := by
        have := hok'.2
        rw [hs] at this
        simpa using this
      simp only [List.drop_zero, partsTrace_eq s.parts hok'.1, hs,
        setRestTrace_small d hd, playRepsTrace]

theorem sectionsTrace_eq (f1 f2 : Nat) (ss : List WorkoutSet)
    (h : ss.all sectionOk = true) :
    doSectionsTrace f1 f2 false ss = .ok (playSectionsTrace ss) := by
  induction ss with
  | nil => rfl
  | cons s rest ih =>
    simp only [List.all_cons, Bool.and_eq_true] at h
    have step : doSectionsTrace f1 f2 false (s :: rest) =
        match doRepsTrace s f2 false 0 (s.reps - 0) with
        | .error e => .error e
        | .ok (evs, fl) =>
          match doSectionsTrace f1 f2 fl rest with
          | .error e => .error e
          | .ok tevs => .ok ([Event.printSection s.name s.reps] ++ evs ++ tevs) := rfl
    rw [step, Nat.sub_zero, repsTrace_eq s h.1 f2 s.reps 0]
    simp [playSectionsTrace, ih h.2]

theorem repsTrace_first (s : WorkoutSet) (hok : sectionOk s = true)
    (hreps : 1 ≤ s.reps) (nm : Str) (am : ExcerciseAmout)
    (prest : List WorkoutSetElement)
    (hp : s.parts = .Excercise nm am :: prest) :
    doRepsTrace s 0 true 0 s.reps = .ok (playRepsTrace s 0 s.reps, false) := by
  have hok' := hok
  simp only [sectionOk, Bool.and_eq_true] at hok'
  obtain ⟨m, hm⟩ : ∃ m, s.reps = m + 1 := ⟨s.reps - 1, by omega⟩
  have hfind : findExcerciseIdx s.parts (0 + 1) = some 0 := by rw [hp]; rfl
  rw [hm]
  have step : doRepsTrace s 0 true 0 (m + 1) =
      match (match findExcerciseIdx s.parts (0 + 1) with
             | some idx => (Except.ok (idx, false) : Except RunErr (Nat × Bool))
             | none => Except.error RunErr.outOfBounds) with
      | .error e => .error e
      | .ok (st, f) =>
        match doRepsTrace s 0 f 1 m with
        | .error e => .error e
        | .ok (evs, f2) =>
          .ok ((if 0 < 0 then [Event.printRepeat (0 + 1) s.reps] else []) ++
            [Event.beep .Mid, .beep .Mid, .sleep PRE_SECTION_WAIT] ++
            doPartsTrace (s.parts.drop st) ++
            (if 0 < s.reps - 1 then setRestTrace s.set_rest else []) ++ evs, f2) := rfl
  rw [step, hfind]
  have hrec := repsTrace_eq s hok 0 m 1
  rcases hs : s.set_rest with _ | d
  · simp only [hrec, List.drop_zero, partsTrace_eq s.parts hok'.1, hs,
      setRestTrace_none, playRepsTrace]
  · have hd : d ≤ nsec 7 := by
      have := hok'.2
      rw [hs] at this
      simpa using this
    simp only [hrec, List.drop_zero, partsTrace_eq s.parts hok'.1, hs,
      setRestTrace_small d hd, playRepsTrace]

theorem sectionsTrace_first (ss : List WorkoutSet)
    (hall : ss.all sectionOk = true)
    (hhead : ss = [] ∨ ∃ s tl, ss = s :: tl ∧ 1 ≤ s.reps ∧
      ∃ nm am prest, s.parts = WorkoutSetElement.Excercise nm am :: prest) :
    doSectionsTrace 0 0 true ss = .ok (withSleep6 (playSectionsTrace ss)) := by
  cases ss with
  | nil => rfl
  | cons s rest =>
    rcases hhead with heq | ⟨s2, tl, heq, hr1, nm, am, prest, hp⟩
    · exact absurd heq (by simp)
    obtain ⟨h1, h2⟩ : s = s2 ∧ rest = tl := by
      injection heq with ha hb
      exact ⟨ha, hb⟩
    subst h1
    subst h2
    simp only [List.all_cons, Bool.and_eq_true] at hall
    have step : doSectionsTrace 0 0 true (s :: rest) =
        match doRepsTrace s 0 true 0 (s.reps - 0) with
        | .error e => .error e
        | .ok (evs, fl) =>
          match doSectionsTrace 0 0 fl rest with
          | .error e => .error e
          | .ok tevs =>
            .ok ((Event.printSection s.name s.reps :: [Event.sleep (nsec 6)]) ++
              evs ++ tevs) := rfl
    rw [step, Nat.sub_zero, repsTrace_first s hall.1 hr1 nm am prest hp]
    simp [withSleep6, playSectionsTrace, sectionsTrace_eq 0 0 rest hall.2]

/-- C2 counterexample: on the workout with no sections the resumable
player at (0,0,0) and the non-resumable player both succeed but produce
different traces — the resumable player emits an opening and a closing
three-beep fanfare, two two-second sleeps and the completion message
"Reached the end. Good job!", while the non-resumable player emits no
beeps, a one-second sleep and the misspelt message "Readched the end.
Good job!". -/
theorem c2_counterexample :
    (doWorkoutTrace ⟨"W".toList, []⟩ 0 0 0).isOk = true ∧
    doWorkoutTrace ⟨"W".toList, []⟩ 0 0 0 ≠
      .ok (playWorkoutTrace ⟨"W".toList, []⟩) := by
  refine ⟨rfl, fun h => ?_⟩
  have e1 : doWorkoutTrace ⟨"W".toList, []⟩ 0 0 0 =
      .ok [Event.printBanner "W".toList 0, Event.beep .High, Event.beep .Mid,
        Event.beep .Low, Event.print "Reached the end. Good job!",
        Event.sleep (nsec 2), Event.beep .Low, Event.beep .Mid,
        Event.beep .High, Event.sleep (nsec 2)] := rfl
  have e2 : playWorkoutTrace ⟨"W".toList, []⟩ =
      [Event.printBanner "W".toList 0,
       Event.print "Readched the end. Good job!", Event.sleep (nsec 1)] := rfl
  rw [e1, e2] at h
  exact absurd (Except.ok.inj h) (by decide)

/-- C2 amended: the two players differ by fixed extras of the resumable
variant; on every workout where their remaining behaviours coincide —
every section agreeable (no rest of exactly five seconds, no rest
immediately followed by an exercise, set rests at most seven seconds)
and the first section, if any, having reps ≥ 1 and starting with an
`Excercise` element — the resumable player at (0,0,0) succeeds and
produces the banner, an opening High–Mid–Low fanfare, the common
section-by-section body with one extra six-second sleep after the first
section header, the completion message "Reached the end. Good job!", a
two-second sleep, a closing Low–Mid–High fanfare and a final two-second
sleep, while the non-resumable player produces the banner, the same
body, the message "Readched the end. Good job!" and a one-second
sleep. -/
theorem c2_amended (w : Workout) (h : workoutOk w = true) :
    doWorkoutTrace w 0 0 0 =
      .ok ([Event.printBanner w.name (workoutLength w),
        Event.beep .High, Event.beep .Mid, Event.beep .Low] ++
        withSleep6 (playSectionsTrace w.sections) ++
        [Event.print "Reached the end. Good job!", Event.sleep (nsec 2),
         Event.beep .Low, Event.beep .Mid, Event.beep .High,
         Event.sleep (nsec 2)]) ∧
    playWorkoutTrace w =
      Event.printBanner w.name (workoutLength w) ::
        playSectionsTrace w.sections ++
        [Event.print "Readched the end. Good job!", Event.sleep (nsec 1)] := by
  simp only [workoutOk, Bool.and_eq_true] at h
  refine ⟨?_, rfl⟩
  have hhead : w.sections = [] ∨ ∃ s tl, w.sections = s :: tl ∧ 1 ≤ s.reps ∧
      ∃ nm am prest, s.parts = WorkoutSetElement.Excercise nm am :: prest := by
    have h2 := h.2
    rcases hw : w.sections with _ | ⟨s, rest⟩
    · exact Or.inl rfl
    · rw [hw] at h2
      simp only [Bool.and_eq_true, decide_eq_true_eq] at h2
      refine Or.inr ⟨s, rest, rfl, h2.1, ?_⟩
      rcases hparts : s.parts with _ | ⟨p, pr⟩
      · rw [hparts] at h2
        exact absurd h2.2 (by simp)
      · cases p with
        | Excercise nm am => exact ⟨nm, am, pr, rfl⟩
        | Rest d =>
          rw [hparts] at h2
          exact absurd h2.2 (by simp)
  have step : doWorkoutTrace w 0 0 0 =
      match doSectionsTrace 0 0 true (w.sections.drop 0) with
      | .error e => .error e
      | .ok evs =>
        .ok ([Event.printBanner w.name (workoutLength w),
          Event.beep .High, Event.beep .Mid, Event.beep .Low] ++ [] ++ evs ++
          [Event.print "Reached the end. Good job!", Event.sleep (nsec 2),
           Event.beep .Low, Event.beep .Mid, Event.beep .High,
           Event.sleep (nsec 2)]) := rfl
  rw [step, List.drop_zero, sectionsTrace_first w.sections h.1 hhead]
  simp

/-- C2 witness: a concrete one-section workout on which the amended
comparison is evaluated. -/
theorem c2_witness :
    doWorkoutTrace ⟨"W".toList, [⟨none, [.Excercise "Push".toList (.Reps 10)], 1, none⟩]⟩
        0 0 0 =
      .ok ([Event.printBanner
          (⟨"W".toList, [⟨none, [.Excercise "Push".toList (.Reps 10)], 1, none⟩]⟩ :
            Workout).name
          (workoutLength
            ⟨"W".toList, [⟨none, [.Excercise "Push".toList (.Reps 10)], 1, none⟩]⟩),
        Event.beep .High, Event.beep .Mid, Event.beep .Low] ++
        withSleep6 (playSectionsTrace
          [⟨none, [.Excercise "Push".toList (.Reps 10)], 1, none⟩]) ++
        [Event.print "Reached the end. Good job!", Event.sleep (nsec 2),
         Event.beep .Low, Event.beep .Mid, Event.beep .High,
         Event.sleep (nsec 2)]) ∧
    playWorkoutTrace
        ⟨"W".toList, [⟨none, [.Excercise "Push".toList (.Reps 10)], 1, none⟩]⟩ =
      Event.printBanner
        (⟨"W".toList, [⟨none, [.Excercise "Push".toList (.Reps 10)], 1, none⟩]⟩ :
          Workout).name
        (workoutLength
          ⟨"W".toList, [⟨none, [.Excercise "Push".toList (.Reps 10)], 1, none⟩]⟩) ::
        playSectionsTrace [⟨none, [.Excercise "Push".toList (.Reps 10)], 1, none⟩] ++
        [Event.print "Readched the end. Good job!", Event.sleep (nsec 1)] :=
  c2_amended ⟨"W".toList, [⟨none, [.Excercise "Push".toList (.Reps 10)], 1, none⟩]⟩
    (by decide)

/-! ## Symbolic-token parsing lemmas (for the lenient `Set rest` claims) -/

theorem splitOnce_append_sep (sep : Char) (l r : Str) (h : sep ∉ l) :
    splitOnce sep (l ++ sep :: r) = some (l, r) := by
  induction l with
  | nil => simp [splitOnce]
  | cons c cs ih =>
    have hc : ¬ c = sep := by
      intro e
      exact h (e ▸ List.mem_cons_self c cs)
    simp [splitOnce, hc, ih (fun hm => h (List.mem_cons_of_mem c hm))]

theorem getNameReps_srtok (tok : Str) (hsp : ' ' ∉ tok)
    (hx : ∀ v, stripPrefixChar 'x' tok = some v → parseNatBound v U16MAX = none) :
    getNameReps (" rest ".toList ++ tok) = (some ("rest ".toList ++ tok), 1) := by
  have ht : trimStart (" rest ".toList ++ tok) = "rest ".toList ++ tok := rfl
  have hemp : ("rest ".toList ++ tok).isEmpty = false := rfl
  have hrs : rsplitOnce ' ' ("rest ".toList ++ tok) = some ("rest".toList, tok) := by
    unfold rsplitOnce
    have hrev : ("rest ".toList ++ tok).reverse =
        tok.reverse ++ (' ' :: "tser".toList) := by
      rw [List.reverse_append]
      rfl
    rw [hrev, splitOnce_append_sep ' ' tok.reverse ("tser".toList)
      (fun hm => hsp (List.mem_reverse.mp hm))]
    simp
  simp only [getNameReps, ht, hemp, Bool.false_eq_true, if_false, hrs]
  cases hsx : stripPrefixChar 'x' tok with
  | none => rfl
  | some v => simp only [hx v hsx]

/-- One section-loop step on a lone malformed `Set rest <tok>` line: the
line is accepted as a section header (`Set` matches without a following
space), and the whole remainder becomes the section name. -/
theorem singleLineStep (fuel : Nat) (tok : Str) :
    parseSectionsF (fuel + 1) ["Set rest ".toList ++ tok] =
      .ok [⟨(getNameReps (" rest ".toList ++ tok)).1, [],
        (getNameReps (" rest ".toList ++ tok)).2, none⟩] := rfl

/-- One section-loop step on the three lines `Set`, `Rest 00:10`,
`Set rest <tok>`: the element loop consumes the rest line and stops at
the `Set rest` line, whose duration token decides what happens next. -/
theorem threeLineStep (tok : Str) :
    parseSectionsF 3
        ["Set".toList, "Rest 00:10".toList, "Set rest ".toList ++ tok] =
      (match parseDur tok with
       | .error .panic => Except.error ParseErr.panic
       | .error .notInt =>
         match parseSectionsF 2 ["Set rest ".toList ++ tok] with
         | .error e => .error e
         | .ok secs =>
           .ok (⟨none, [WorkoutSetElement.Rest (nsec 10)], 1, none⟩ :: secs)
       | .ok d =>
         match parseSectionsF 2 ([] : List Str) with
         | .error e => .error e
         | .ok secs =>
           .ok (⟨none, [WorkoutSetElement.Rest (nsec 10)], 1, some d⟩ :: secs)) := rfl

theorem loadWorkout_lines (src : Str) (ls : List Str)
    (h : (rustLines src).filter (fun l => !(isBlank l)) = "Workout W".toList :: ls) :
    loadWorkout src =
      (match parseSectionsF ls.length ls with
       | .error e => .error e
       | .ok secs => .ok ⟨"W".toList, secs⟩) := by
  simp only [loadWorkout, h]
  rw [show stripPre "Workout ".toList (trimStart ("Workout W".toList)) =
    some ("W".toList) from rfl]

/-- C5 counterexample: with the malformed `Set rest xx:xx` line present,
parsing succeeds but yields a different Workout value than with the line
absent — the line is re-parsed as an extra section named "rest xx:xx"
(the claim says the two results are equal). -/
theorem c5_counterexample :
    loadWorkout ("Workout W\nSet\nRest 00:10\nSet rest xx:xx".toList) =
      .ok ⟨"W".toList, [⟨none, [.Rest (nsec 10)], 1, none⟩,
        ⟨some "rest xx:xx".toList, [], 1, none⟩]⟩ ∧
    loadWorkout ("Workout W\nSet\nRest 00:10".toList) =
      .ok ⟨"W".toList, [⟨none, [.Rest (nsec 10)], 1, none⟩]⟩ ∧
    (⟨"W".toList, [⟨none, [.Rest (nsec 10)], 1, none⟩,
        ⟨some "rest xx:xx".toList, [], 1, none⟩]⟩ : Workout) ≠
      ⟨"W".toList, [⟨none, [.Rest (nsec 10)], 1, none⟩]⟩ := by
  refine ⟨rfl, rfl, by decide⟩

/-- C5 amended: for a `Set rest <tok>` line following a section's
element list, with `tok` an unparsable duration of at least five
characters (no space, and not an `x<u16>` token), parsing succeeds and
the section's set_rest is None, but the line is not consumed: it is
re-parsed as one additional section named from its remainder, so the
result differs from the identical text with the line absent by exactly
that extra section.  A token shorter than five characters instead makes
the whole parse panic inside `parse_dur`. -/
theorem c5_amended (tok : Str) (src1 src2 : Str)
    (h1 : (rustLines src1).filter (fun l => !(isBlank l)) =
      ["Workout W".toList, "Set".toList, "Rest 00:10".toList,
       "Set rest ".toList ++ tok])
    (h2 : (rustLines src2).filter (fun l => !(isBlank l)) =
      ["Workout W".toList, "Set".toList, "Rest 00:10".toList])
    (hdur : parseDur tok = .error .notInt) (hsp : ' ' ∉ tok)
    (hx : ∀ v, stripPrefixChar 'x' tok = some v → parseNatBound v U16MAX = none) :
    loadWorkout src1 = .ok ⟨"W".toList,
      [⟨none, [.Rest (nsec 10)], 1, none⟩,
       ⟨some ("rest ".toList ++ tok), [], 1, none⟩]⟩ ∧
    loadWorkout src2 = .ok ⟨"W".toList, [⟨none, [.Rest (nsec 10)], 1, none⟩]⟩ ∧
    (∀ (tok2 src3 : Str), tok2.length < 5 →
      (rustLines src3).filter (fun l => !(isBlank l)) =
        ["Workout W".toList, "Set".toList, "Rest 00:10".toList,
         "Set rest ".toList ++ tok2] →
      loadWorkout src3 = .error .panic) := by
  refine ⟨?_, ?_, ?_⟩
  · rw [loadWorkout_lines src1 _ h1,
      show (["Set".toList, "Rest 00:10".toList,
        "Set rest ".toList ++ tok] : List Str).length = 3 from rfl,
      threeLineStep tok, hdur, singleLineStep 1 tok,
      getNameReps_srtok tok hsp hx]
  · rw [loadWorkout_lines src2 _ h2]
    rfl
  · intro tok2 src3 hlen h3
    have hpanic : parseDur tok2 = .error .panic := by
      simp [parseDur, hlen]
    rw [loadWorkout_lines src3 _ h3,
      show (["Set".toList, "Rest 00:10".toList,
        "Set rest ".toList ++ tok2] : List Str).length = 3 from rfl,
      threeLineStep tok2, hpanic]

/-- C5 witness: the concrete token "xx:xx" (five characters, fails the
u64 parse); the text with the malformed line yields two sections, the
text without it yields one. -/
theorem c5_witness :
    loadWorkout ("Workout W\nSet\nRest 00:10\nSet rest xx:xx".toList) =
      .ok ⟨"W".toList, [⟨none, [.Rest (nsec 10)], 1, none⟩,
        ⟨some ("rest ".toList ++ "xx:xx".toList), [], 1, none⟩]⟩ ∧
    loadWorkout ("Workout W\nSet\nRest 00:10".toList) =
      .ok ⟨"W".toList, [⟨none, [.Rest (nsec 10)], 1, none⟩]⟩ := by
  have h := c5_amended ("xx:xx".toList)
    ("Workout W\nSet\nRest 00:10\nSet rest xx:xx".toList)
    ("Workout W\nSet\nRest 00:10".toList)
    (by rfl) (by rfl) (by rfl) (by decide)
    (fun v hv => by
      rw [show stripPrefixChar 'x' ("xx:xx".toList) = some ("x:xx".toList)
        from rfl] at hv
      injection hv with h2
      rw [← h2]
      rfl)
  exact ⟨h.1, h.2.1⟩

/-- C10: at a section boundary the parser accepts any line whose trimmed
text merely starts with the three characters "Set" — no following space
required — as a section header, and the expected-set error occurs
exactly at lines not starting with "Set"; in particular the line
"Setty" parses as a section named "ty", and a `Set rest <tok>` line
whose token is unparsable is itself parsed as a section header producing
a section whose name "rest <tok>" derives from its remainder. -/
theorem c10_set_header_leniency :
    (∀ (l : Str) (ls : List Str) (fuel : Nat),
      stripPre "Set".toList (trimStart l) = none →
      parseSectionsF (fuel + 1) (l :: ls) = .error .expectedSet) ∧
    loadWorkout ("Workout W\nSetty".toList) =
      .ok ⟨"W".toList, [⟨some "ty".toList, [], 1, none⟩]⟩ ∧
    (∀ tok : Str, ' ' ∉ tok →
      (∀ v, stripPrefixChar 'x' tok = some v → parseNatBound v U16MAX = none) →
      parseSectionsF 1 ["Set rest ".toList ++ tok] =
        .ok [⟨some ("rest ".toList ++ tok), [], 1, none⟩]) := by
  refine ⟨fun l ls fuel h => ?_, by rfl, fun tok hsp hx => ?_⟩
  · simp only [parseSectionsF, h]
  · rw [singleLineStep 0 tok, getNameReps_srtok tok hsp hx]

/-- C10 witness: "Nope" fails with the expected-set error, while the
lone line "Set rest ab:cd" becomes a section named "rest ab:cd". -/
theorem c10_witness :
    parseSectionsF 1 ["Nope".toList] = .error .expectedSet ∧
    parseSectionsF 1 ["Set rest ab:cd".toList] =
      .ok [⟨some "rest ab:cd".toList, [], 1, none⟩] := by
  constructor
  · exact c10_set_header_leniency.1 ("Nope".toList) [] 0 (by rfl)
  · exact c10_set_header_leniency.2.2 ("ab:cd".toList) (by decide)
      (fun v hv => by
        rw [show stripPrefixChar 'x' ("ab:cd".toList) = none from rfl] at hv
        cases hv)

/-! ## Section-reps invariant (for the reps ≥ 1 claim) -/

theorem parseParts_sublist (ls : List Str) : ∀ ps rem,
    parseParts ls = .ok (ps, rem) → rem.Sublist ls := by
  induction ls with
  | nil =>
    intro ps rem h
    simp only [parseParts, Except.ok.injEq, Prod.mk.injEq] at h
    obtain ⟨h1, h2⟩ := h
    subst h2
    exact List.Sublist.refl _
  | cons l ls ih =>
    intro ps rem h
    cases hso : splitOnce ' ' (trimStart l) with
    | none =>
      simp only [parseParts, hso, Except.ok.injEq, Prod.mk.injEq] at h
      obtain ⟨h1, h2⟩ := h
      subst h2
      exact List.Sublist.refl _
    | some pr =>
      obtain ⟨t, rest⟩ := pr
      by_cases ht : t = "Excercise".toList
      · cases hrs : rsplitOnce ' ' rest with
        | none => simp [parseParts, hso, ht, hrs] at h
        | some pr2 =>
          obtain ⟨nm, amount⟩ := pr2
          cases hsx : stripPrefixChar 'x' amount with
          | some v =>
            cases hpn : parseNatBound v U16MAX with
            | none => simp [parseParts, hso, ht, hrs, hsx, hpn] at h
            | some r =>
              cases hpp : parseParts ls with
              | error e => simp [parseParts, hso, ht, hrs, hsx, hpn, hpp] at h
              | ok pr3 =>
                obtain ⟨ps2, rem2⟩ := pr3
                simp only [parseParts, hso, ht, hrs, hsx, hpn, hpp,
                  eq_self_iff_true, ite_true, Except.ok.injEq,
                  Prod.mk.injEq] at h
                obtain ⟨h1, h2⟩ := h
                subst h2
                exact List.Sublist.cons l (ih ps2 rem2 hpp)
          | none =>
            cases hd : parseDur amount with
            | error e =>
              cases e <;> simp [parseParts, hso, ht, hrs, hsx, hd] at h
            | ok d =>
              cases hpp : parseParts ls with
              | error e => simp [parseParts, hso, ht, hrs, hsx, hd, hpp] at h
              | ok pr3 =>
                obtain ⟨ps2, rem2⟩ := pr3
                simp only [parseParts, hso, ht, hrs, hsx, hd, hpp,
                  eq_self_iff_true, ite_true, Except.ok.injEq,
                  Prod.mk.injEq] at h
                obtain ⟨h1, h2⟩ := h
                subst h2
                exact List.Sublist.cons l (ih ps2 rem2 hpp)
      · by_cases ht2 : t = "Rest".toList
        · cases hd : parseDur rest with
          | error e =>
            cases e <;> simp [parseParts, hso, ht, ht2, hd] at h
          | ok d =>
            cases hpp : parseParts ls with
            | error e => simp [parseParts, hso, ht, ht2, hd, hpp] at h
            | ok pr3 =>
              obtain ⟨ps2, rem2⟩ := pr3
              have hval : parseParts (l :: ls) =
                  .ok (WorkoutSetElement.Rest d :: ps2, rem2) := by
                simp only [parseParts, hso]
                rw [if_neg ht, if_pos ht2, hd, hpp]
              rw [hval] at h
              simp only [Except.ok.injEq, Prod.mk.injEq] at h
              obtain ⟨h1, h2⟩ := h
              subst h2
              exact List.Sublist.cons l (ih ps2 rem2 hpp)
        · have hval : parseParts (l :: ls) = .ok ([], l :: ls) := by
            simp only [parseParts, hso]
            rw [if_neg ht, if_neg ht2]
          rw [hval] at h
          simp only [Except.ok.injEq, Prod.mk.injEq] at h
          obtain ⟨h1, h2⟩ := h
          subst h2
          exact List.Sublist.refl _

theorem parseSectionsF_reps (fuel : Nat) : ∀ ls secs,
    parseSectionsF fuel ls = .ok secs →
    (∀ l ∈ ls, isX0Header l = false) →
    ∀ sec ∈ secs, 1 ≤ sec.reps := by
  induction fuel with
  | zero =>
    intro ls secs h hno
    cases ls with
    | nil =>
      simp only [parseSectionsF, Except.ok.injEq] at h
      subst h
      intro sec hs
      exact absurd hs (by simp)
    | cons l ls2 => exact absurd h (by simp [parseSectionsF])
  | succ fuel ih =>
    intro ls secs h hno
    cases ls with
    | nil =>
      simp only [parseSectionsF, Except.ok.injEq] at h
      subst h
      intro sec hs
      exact absurd hs (by simp)
    | cons l ls2 =>
      simp only [parseSectionsF] at h
      cases hst : stripPre "Set".toList (trimStart l) with
      | none =>
        have hst2 : stripPre ['S', 'e', 't'] (trimStart l) = none := hst
        simp [hst, hst2] at h
      | some set =>
        have hst2 : stripPre ['S', 'e', 't'] (trimStart l) = some set := hst
        simp only [hst, hst2] at h
        have hkey : 1 ≤ (getNameReps set).2 := by
          have hx0 : isX0Header l = false := hno l (List.mem_cons_self l ls2)
          unfold isX0Header at hx0
          simp only [hst] at hx0
          simp only [getNameReps]
          cases hemp : (trimStart set).isEmpty
          · simp only [hemp, Bool.false_eq_true, if_false]
            cases hrs : rsplitOnce ' ' (trimStart set) with
            | none => simp
            | some pr =>
              obtain ⟨nm2, reps2⟩ := pr
              simp only [hrs] at hx0
              cases hsx : stripPrefixChar 'x' reps2 with
              | none => simp [hsx]
              | some v =>
                simp only [hsx] at hx0
                cases hpn : parseNatBound v U16MAX with
                | none => simp [hsx, hpn]
                | some r =>
                  simp only [hpn] at hx0
                  have hr : ¬ r = 0 := by simpa using hx0
                  simp only [hsx, hpn]
                  omega
          · simp [hemp]
        cases hpp : parseParts ls2 with
        | error e => simp [hpp] at h
        | ok pr =>
          obtain ⟨ps, rem⟩ := pr
          simp only [hpp] at h
          have hsub := parseParts_sublist ls2 ps rem hpp
          have hnorem : ∀ l2 ∈ rem, isX0Header l2 = false := fun l2 hl2 =>
            hno l2 (List.mem_cons_of_mem l (hsub.subset hl2))
          cases rem with
          | nil =>
            simp only [Except.ok.injEq] at h
            subst h
            intro sec hs
            simp only [List.mem_singleton] at hs
            subst hs
            exact hkey
          | cons r0 rem2 =>
            have hnorem2 : ∀ l2 ∈ rem2, isX0Header l2 = false := fun l2 hl2 =>
              hnorem l2 (List.mem_cons_of_mem r0 hl2)
            cases hsr : stripPre "Set rest ".toList (trimStart r0) with
            | none =>
              have hsr2 : stripPre ['S', 'e', 't', ' ', 'r', 'e', 's', 't', ' ']
                (trimStart r0) = none := hsr
              simp only [hsr, hsr2] at h
              cases hrec : parseSectionsF fuel (r0 :: rem2) with
              | error e => simp [hrec] at h
              | ok secs2 =>
                simp only [hrec, Except.ok.injEq] at h
                subst h
                intro sec hs
                rcases List.mem_cons.mp hs with h1 | h1
                · subst h1; exact hkey
                · exact ih (r0 :: rem2) secs2 hrec hnorem sec h1
            | some tk =>
              have hsr2 : stripPre ['S', 'e', 't', ' ', 'r', 'e', 's', 't', ' ']
                (trimStart r0) = some tk := hsr
              simp only [hsr, hsr2] at h
              cases hdur : parseDur tk with
              | error e =>
                cases e with
                | panic => simp [hdur] at h
                | notInt =>
                  simp only [hdur] at h
                  cases hrec : parseSectionsF fuel (r0 :: rem2) with
                  | error e2 => simp [hrec] at h
                  | ok secs2 =>
                    simp only [hrec, Except.ok.injEq] at h
                    subst h
                    intro sec hs
                    rcases List.mem_cons.mp hs with h1 | h1
                    · subst h1; exact hkey
                    · exact ih (r0 :: rem2) secs2 hrec hnorem sec h1
              | ok d =>
                simp only [hdur] at h
                cases hrec : parseSectionsF fuel rem2 with
                | error e2 => simp [hrec] at h
                | ok secs2 =>
                  simp only [hrec, Except.ok.injEq] at h
                  subst h
                  intro sec hs
                  rcases List.mem_cons.mp hs with h1 | h1
                  · subst h1; exact hkey
                  · exact ih rem2 secs2 hrec hnorem2 sec h1

/-- C8 counterexample: the parser accepts an explicit `x0` repetition
token, so the text "Workout W\nSet A x0" yields a workout with a section
whose reps is 0, refuting the claim that every parsed section has
reps ≥ 1. -/
theorem c8_counterexample :
    loadWorkout ("Workout W\nSet A x0".toList) =
      .ok ⟨"W".toList, [⟨some "A".toList, [], 0, none⟩]⟩ ∧
    ¬ (∀ w, loadWorkout ("Workout W\nSet A x0".toList) = .ok w →
        ∀ sec ∈ w.sections, 1 ≤ sec.reps) := by
  constructor
  · rfl
  · intro hall
    have := hall ⟨"W".toList, [⟨some "A".toList, [], 0, none⟩]⟩ rfl
      ⟨some "A".toList, [], 0, none⟩ (by simp)
    exact absurd this (by decide)

/-- C8 amended: every section of every Workout returned by the parser
has reps ≥ 1 — so the reps − 1 computations never underflow — unless
some `Set` header line carries an explicit `x0` repetition token (its
last space-separated token strips an `x` and parses as the u16 value 0),
in which case that section's reps is 0. -/
theorem c8_amended (src : Str) (w : Workout)
    (hw : loadWorkout src = .ok w)
    (hno : ∀ l ∈ (rustLines src).filter (fun l => !(isBlank l)),
      isX0Header l = false) :
    ∀ sec ∈ w.sections, 1 ≤ sec.reps := by
  simp only [loadWorkout] at hw
  cases hls : (rustLines src).filter (fun l => !(isBlank l)) with
  | nil => simp [hls] at hw
  | cons l0 rest =>
    simp only [hls] at hw
    cases hst : stripPre "Workout ".toList (trimStart l0) with
    | none =>
      have hst2 : stripPre ['W', 'o', 'r', 'k', 'o', 'u', 't', ' ']
        (trimStart l0) = none := hst
      simp [hst, hst2] at hw
    | some nm =>
      have hst2 : stripPre ['W', 'o', 'r', 'k', 'o', 'u', 't', ' ']
        (trimStart l0) = some nm := hst
      simp only [hst, hst2] at hw
      cases hps : parseSectionsF rest.length rest with
      | error e => simp [hps] at hw
      | ok secs =>
        simp only [hps, Except.ok.injEq] at hw
        subst hw
        rw [hls] at hno
        exact parseSectionsF_reps rest.length rest secs hps
          (fun l hl => hno l (List.mem_cons_of_mem l0 hl))

/-- C8 witness: the explicit header "Set A x3", whose token is not x0,
yields a section with reps 3 ≥ 1. -/
theorem c8_witness :
    1 ≤ (⟨some "A".toList, [], 3, none⟩ : WorkoutSet).reps :=
  c8_amended ("Workout W\nSet A x3".toList)
    ⟨"W".toList, [⟨some "A".toList, [], 3, none⟩]⟩ rfl (by decide)
    ⟨some "A".toList, [], 3, none⟩ (by simp)

end Workout2Proof
